import Mathlib

/-!
Verification of the vulnerability-scan aggregation and MCP tool-detection
utilities (`src/vmcp/utils/aggregate_results.py` and
`src/vmcp/utils/tool_detector.py`).

The Python code is shallowly embedded:

* a violation record is an open JSON object of which only the keys
  `severity` and `fixed_version` are ever consulted, so it is modelled by a
  structure with those two optional fields (`Option` models key absence);
* Python dicts over string keys become association lists with
  first-match lookup and replace-in-place update, mirroring dict insertion
  order and `d[k] = v` semantics;
* the results directory becomes a finite map from file name to the parsed
  scanner mapping the file holds (`json.load`/`json.dump` of
  JSON-representable data round-trips and is the identity in this model);
* the regular-expression scanning in the tool detector is embedded via a
  small backtracking matcher whose semantics follow Python's `re` engine
  (leftmost match, left-biased alternation, greedy/lazy repetition,
  capture groups), and each compiled pattern of the source is transcribed
  into an explicit syntax tree;
* a file whose read raises is modelled by a content of `none`; a function
  of the source that can propagate an exception returns `Option`, with
  `none` meaning the exception escapes.

`SCANNER_MAP` is imported by the source from `vmcp.orchestrator`, which is
not part of this repository snapshot; following the spec ("Global
dependency on a fixed scanner-name registry ... should be expressed as an
explicit injected configuration (ordered set of scanner identifiers)") it
is modelled as an explicit `List String` parameter of the aggregation
functions.
-/

/-- Association-list lookup with Python dict key-equality semantics:
the value of the first entry whose key equals the query. -/
def dlookup {α : Type} : List (String × α) → String → Option α
  | [], _ => none
  | (k, v) :: t, key => if k = key then some v else dlookup t key

/-- Python `d[k] = v` on a dict modelled as an association list: replace the
value of the first entry holding `k` in place, or append a fresh entry. -/
def dictSet {α : Type} : List (String × α) → String → α → List (String × α)
  | [], k, v => [(k, v)]
  | (k', v') :: t, k, v => if k' = k then (k', v) :: t else (k', v') :: dictSet t k v

/-- Remove the entries with the given key (models deleting a file from the
results directory). -/
def dremove {α : Type} : List (String × α) → String → List (String × α)
  | [], _ => []
  | (k, v) :: t, key => if k = key then dremove t key else (k, v) :: dremove t key

/-- The value the key holds after Python iterates `for k, v in d.items():
m[k] = v`: the value of the key's last occurrence. -/
def lookupLast {α : Type} (m : List (String × α)) (key : String) : Option α :=
  dlookup m.reverse key

/-- A scanner finding. Violation records are opaque JSON objects of which the
source only reads `severity` (`vuln.get('severity', 'UNKNOWN')`) and
`fixed_version` (`vuln.get('fixed_version')`); `none` models an absent key. -/
structure Violation where
  severity : Option String
  fixed_version : Option String
deriving DecidableEq

/-- The severity the source works with: `vuln.get('severity', 'UNKNOWN')`. -/
def sevOf (v : Violation) : String := v.severity.getD "UNKNOWN"

/-- `SEVERITY_ORDER` of `aggregate_results.py` (lines 9-17). -/
def SEVERITY_ORDER : List (String × Nat) :=
  [("CRITICAL", 0), ("HIGH", 1), ("MEDIUM", 2), ("LOW", 3),
   ("UNKNOWN", 4), ("WARNING", 5), ("NONE", 6)]

/-- `SEVERITY_ORDER.get(severity, 999)` as used throughout the source. -/
def sevPriority (severity : String) : Nat :=
  (dlookup SEVERITY_ORDER severity).getD 999

/-- `SEVERITY_EMOJI` of `aggregate_results.py` (lines 19-27). -/
def SEVERITY_EMOJI : List (String × String) :=
  [("CRITICAL", "🔴"), ("HIGH", "🔴"), ("MEDIUM", "🟡"), ("LOW", "🟡"),
   ("UNKNOWN", "🟡"), ("WARNING", "🟡"), ("NONE", "🟢")]

/-- One iteration of the loop of `get_worst_severity`: the accumulator is the
pair `(worst_severity, worst_priority)`. -/
def gwsStep (acc : String × Nat) (vuln : Violation) : String × Nat :=
  let severity := sevOf vuln
  let priority := sevPriority severity
  if priority < acc.2 then (severity, priority) else acc

/-- `get_worst_severity` (`aggregate_results.py`, lines 32-48): `'NONE'` for an
empty list, otherwise a fold starting from `('NONE', SEVERITY_ORDER['NONE'])`
that keeps the entry of strictly smallest priority. -/
def get_worst_severity (vulnerabilities : List Violation) : String :=
  match vulnerabilities with
  | [] => "NONE"
  | _ :: _ =>
    (vulnerabilities.foldl gwsStep ("NONE", sevPriority "NONE")).1

/-- A per-repository aggregate: Python dict from scanner name to its list of
violation records, in insertion order. -/
abbrev ScannerMap := List (String × List Violation)

/-- The results directory: file name to the scanner mapping parsed from the
file's JSON contents. -/
abbrev FS := List (String × ScannerMap)

/-- The inner merge loop of `aggregate_results`:
`for scanner, vulns in scanner_data.items(): aggregated[scanner] = vulns`. -/
def mergeScannerData (aggregated : ScannerMap) (scanner_data : ScannerMap) : ScannerMap :=
  scanner_data.foldl (fun agg kv => dictSet agg kv.1 kv.2) aggregated

/-- The body of the per-scanner loop of `aggregate_results`: if the temporary
file `{scanner}-violations.json` exists, merge its contents, else keep the
accumulator. -/
def aggStep (fs : FS) (aggregated : ScannerMap) (scanner_name : String) : ScannerMap :=
  match dlookup fs (scanner_name ++ "-violations.json") with
  | some scanner_data => mergeScannerData aggregated scanner_data
  | none => aggregated

/-- `aggregate_results` (`aggregate_results.py`, lines 51-76): start from the
existing `{org}-{repo}-violations.json` contents (empty when absent), then
fold the known scanners' temporary files over it. `scannerNames` injects the
`SCANNER_MAP` registry (see the module docstring). -/
def aggregate_results (scannerNames : List String) (org_name repo_name : String)
    (fs : FS) : ScannerMap :=
  scannerNames.foldl (aggStep fs)
    ((dlookup fs (org_name ++ "-" ++ repo_name ++ "-violations.json")).getD [])

/-- `save_aggregated_results` (`aggregate_results.py`, lines 79-100): write the
mapping to `{org}-{repo}-violations.json`, then delete every known scanner's
temporary file. `mkdir` and the progress prints have no effect on the
directory contents modelled here. -/
def save_aggregated_results (scannerNames : List String) (org_name repo_name : String)
    (results : ScannerMap) (fs : FS) : FS :=
  scannerNames.foldl (fun f scanner_name => dremove f (scanner_name ++ "-violations.json"))
    (dictSet fs (org_name ++ "-" ++ repo_name ++ "-violations.json") results)

/-- Increment the value of a key that is present (Python `counts[severity] += 1`). -/
def dincr : List (String × Nat) → String → List (String × Nat)
  | [], _ => []
  | (k, v) :: t, key => if k = key then (k, v + 1) :: t else (k, v) :: dincr t key

/-- One iteration of `count_by_severity`: increment only when
`severity in counts`. -/
def cbsStep (counts : List (String × Nat)) (vuln : Violation) : List (String × Nat) :=
  let severity := sevOf vuln
  if (dlookup counts severity).isSome then dincr counts severity else counts

/-- `count_by_severity` (`aggregate_results.py`, lines 103-110). -/
def count_by_severity (vulnerabilities : List Violation) : List (String × Nat) :=
  vulnerabilities.foldl cbsStep
    [("CRITICAL", 0), ("HIGH", 0), ("MEDIUM", 0), ("LOW", 0)]

/-- `count_fixable` (`aggregate_results.py`, lines 113-115): Python truthiness
of `vuln.get('fixed_version')` — present and non-empty. -/
def count_fixable (vulnerabilities : List Violation) : Nat :=
  (vulnerabilities.filter (fun vuln =>
    match vuln.fixed_version with
    | some s => !(s = "" : Bool)
    | none => false)).length

/-- Python string `<`: lexicographic comparison of the code-point sequences. -/
def strLtL : List Char → List Char → Bool
  | [], [] => false
  | [], _ :: _ => true
  | _ :: _, [] => false
  | a :: as1, b :: bs1 => if a = b then strLtL as1 bs1 else decide (a < b)

/-- Python string `<=` (total order): `a <= b` iff not `b < a`. -/
def strLeB (a b : String) : Bool := !(strLtL b.data a.data)

/-- Insert into an ascending list, after all entries `<=` the new one — one
step of a stable insertion sort equal to Python's stable ascending `sorted`. -/
def insertStr (s : String) : List String → List String
  | [] => [s]
  | x :: xs => if strLeB x s then x :: insertStr s xs else s :: x :: xs

/-- Stable ascending sort of strings, as Python `sorted` on strings. -/
def sortStrs (l : List String) : List String :=
  l.foldl (fun acc s => insertStr s acc) []

/-- Python `', '.join(names)`. -/
def joinComma : List String → String
  | [] => ""
  | [s] => s
  | s :: t => s ++ ", " ++ joinComma t

/-- `get_scanners_used` (`aggregate_results.py`, lines 118-121). -/
def get_scanners_used (scanners : ScannerMap) : String :=
  match sortStrs (scanners.map Prod.fst) with
  | [] => "None"
  | names => joinComma names

/-- `all_vulnerabilities` of `generate_summary_table`: every scanner's list of
violations, flattened in dict order. -/
def flattenScanners (scanners : ScannerMap) : List Violation :=
  scanners.foldr (fun kv acc => kv.2 ++ acc) []

/-- One row of the summary table as stored by `generate_summary_table`
(`aggregate_results.py`, lines 167-176). -/
structure SummaryRow where
  org_repo : String
  filename : String
  total : Nat
  severity_counts : List (String × Nat)
  fixable : Nat
  scanners : String
  status : String
  sort_key : Int × String
deriving DecidableEq

/-- Row construction of `generate_summary_table` for one repository file
(`aggregate_results.py`, lines 140-176): the sort key is the literal
`(-severity_priority, org_repo)` of line 175. -/
def makeRow (org_name repo_name : String) (scanners : ScannerMap) : SummaryRow :=
  let org_repo := org_name ++ "/" ++ repo_name
  let all_vulnerabilities := flattenScanners scanners
  let worst_severity := get_worst_severity all_vulnerabilities
  let severity_priority := sevPriority worst_severity
  { org_repo := org_repo
    filename := org_name ++ "-" ++ repo_name ++ "-violations.json"
    total := all_vulnerabilities.length
    severity_counts := count_by_severity all_vulnerabilities
    fixable := count_fixable all_vulnerabilities
    scanners := get_scanners_used scanners
    status := (dlookup SEVERITY_EMOJI worst_severity).getD "⚪"
    sort_key := (-(severity_priority : Int), org_repo) }

/-- Python comparison of the `(int, str)` sort keys: lexicographic, integer
first, then the byte-wise string order. -/
def keyLE (a b : Int × String) : Bool :=
  if a.1 = b.1 then strLeB a.2 b.2 else decide (a.1 < b.1)

/-- Stable ascending insertion for summary rows, keyed by `sort_key`. -/
def insertRow (r : SummaryRow) : List SummaryRow → List SummaryRow
  | [] => [r]
  | x :: xs => if keyLE x.sort_key r.sort_key then x :: insertRow r xs else r :: x :: xs

/-- `rows.sort(key=lambda r: r['sort_key'])`: Python's stable ascending sort,
realised as a stable insertion sort over the same total key order. -/
def sortRows (l : List SummaryRow) : List SummaryRow :=
  l.foldl (fun acc r => insertRow r acc) []

/-- The row list of `generate_summary_table` (`aggregate_results.py`, lines
126-179), from which the Markdown lines are printed in order. The directory
glob and `org-repo-violations.json` filename parsing are abstracted into the
explicit list of `(org_name, repo_name, parsed scanner mapping)` entries. -/
def generate_summary_rows (repoEntries : List (String × String × ScannerMap)) :
    List SummaryRow :=
  sortRows (repoEntries.map fun e => makeRow e.1 e.2.1 e.2.2)

/-- Regular-expression syntax trees, covering exactly the constructs the
compiled patterns of `tool_detector.py` use: character classes (literals,
`[^...]`, `\w`, `\s`, `.`), concatenation, left-biased alternation
(also encoding `(?:...)?`), greedy and lazy repetition, and numbered
capture groups. -/
inductive RE where
  | eps : RE
  | cls : (Char → Bool) → RE
  | seq : RE → RE → RE
  | alt : RE → RE → RE
  | star : Bool → RE → RE
  | group : Nat → RE → RE

/-- Captured groups of a match: group number to captured text; a missing
number is a group that did not participate (Python `None`). -/
abbrev Caps := List (Nat × String)

/-- Record a group's capture (the last capture of a group wins, as in Python). -/
def capSet : Caps → Nat → String → Caps
  | [], i, s => [(i, s)]
  | (j, t) :: rest, i, s => if j = i then (j, s) :: rest else (j, t) :: capSet rest i s

/-- `match.group(i)`: `none` when the group did not participate. -/
def capGet : Caps → Nat → Option String
  | [], _ => none
  | (j, t) :: rest, i => if j = i then some t else capGet rest i

/-- Backtracking matcher in continuation-passing style with the preference
order of Python's `re` engine: alternation tries the left branch first, a
greedy star tries one more repetition before the continuation, a lazy star
tries the continuation first, and a repetition whose body consumed nothing
stops. `fuel` bounds the call depth and is chosen far above the depth any of
the fixed patterns can reach on the inputs considered, so it never changes a
result here. The matcher consumes from the remaining character list `r` and
reports the remainder and captures of the first match in preference order. -/
def matchRE : Nat → RE → List Char → Caps →
    (List Char → Caps → Option (List Char × Caps)) → Option (List Char × Caps)
  | 0, _, _, _, _ => none
  | _ + 1, RE.eps, r, caps, k => k r caps
  | _ + 1, RE.cls p, r, caps, k =>
    match r with
    | [] => none
    | c :: r' => if p c then k r' caps else none
  | fuel + 1, RE.seq a b, r, caps, k =>
    matchRE fuel a r caps fun r' caps' => matchRE fuel b r' caps' k
  | fuel + 1, RE.alt a b, r, caps, k =>
    match matchRE fuel a r caps k with
    | some res => some res
    | none => matchRE fuel b r caps k
  | fuel + 1, RE.star lazyRep a, r, caps, k =>
    if lazyRep then
      match k r caps with
      | some res => some res
      | none =>
        matchRE fuel a r caps fun r' caps' =>
          if r'.length < r.length then matchRE fuel (RE.star lazyRep a) r' caps' k else none
    else
      match matchRE fuel a r caps (fun r' caps' =>
          if r'.length < r.length then matchRE fuel (RE.star lazyRep a) r' caps' k
          else none) with
      | some res => some res
      | none => k r caps
  | fuel + 1, RE.group i a, r, caps, k =>
    matchRE fuel a r caps fun r' caps' =>
      k r' (capSet caps' i (String.mk (r.take (r.length - r'.length))))

/-- Call-depth bound for `matchRE`; see its docstring. -/
def matchFuel : Nat := 1000

/-- An anchored match attempt at offset `i` of `s`, returning the end offset
and the captures of the preferred match. -/
def matchAt (re : RE) (s : List Char) (i : Nat) : Option (Nat × Caps) :=
  match matchRE matchFuel re (s.drop i) [] (fun r c => some (r, c)) with
  | some (rest, caps) => some (i + (s.length - i - rest.length), caps)
  | none => none

/-- One reported match: start offset, end offset, captures. -/
structure MInfo where
  mstart : Nat
  mstop : Nat
  caps : Caps
deriving DecidableEq

/-- Scan loop of `finditer`: try each offset left to right, resume after a
match's end (one past it for an empty match, as in Python 3). -/
def finditerGo (re : RE) (s : List Char) : Nat → Nat → List MInfo
  | 0, _ => []
  | fuel + 1, i =>
    if s.length < i then []
    else
      match matchAt re s i with
      | some (stop, caps) =>
        ⟨i, stop, caps⟩ :: finditerGo re s fuel (if i < stop then stop else i + 1)
      | none => finditerGo re s fuel (i + 1)

/-- Python `pattern.finditer(content)`: all non-overlapping matches, leftmost
first. -/
def finditer (re : RE) (s : List Char) : List MInfo :=
  finditerGo re s (s.length + 1) 0

/-- Python `re.search`: the leftmost match, if any. -/
def searchFirst (re : RE) (s : List Char) : Option MInfo :=
  match finditer re s with
  | [] => none
  | m :: _ => some m

/-- A single literal character. -/
def rc (c : Char) : RE := RE.cls (fun d => d = c)

/-- A literal string of characters. -/
def reStr (t : String) : RE := t.data.foldr (fun c r => RE.seq (rc c) r) RE.eps

/-- Concatenation of a pattern sequence. -/
def reSeqL (l : List RE) : RE := l.foldr RE.seq RE.eps

/-- Greedy `(?: ... )?`. -/
def reOpt (a : RE) : RE := RE.alt a RE.eps

/-- Greedy `+`. -/
def rePlus (a : RE) : RE := RE.seq a (RE.star false a)

/-- Greedy `*`. -/
def star0 (a : RE) : RE := RE.star false a

/-- `\w` (the inputs considered are ASCII, where this is `[a-zA-Z0-9_]`). -/
def wchar : RE := RE.cls (fun c => c.isAlphanum || c = '_')

/-- Python `\s` on ASCII text. -/
def isPySpace (c : Char) : Bool :=
  c = ' ' || c = '\t' || c = '\n' || c = '\r' || c = '\x0b' || c = '\x0c'

/-- `\s` as a pattern. -/
def schar : RE := RE.cls isPySpace

/-- The quote class `["\x27]` of the source patterns. -/
def quoteCls : RE := RE.cls (fun c => c = '"' || c = '\'')

/-- The negated quote class `[^"\x27]`. -/
def notQuoteCls : RE := RE.cls (fun c => !(c = '"' || c = '\'' : Bool))

/-- `.` under `re.DOTALL`. -/
def dotAll : RE := RE.cls (fun _ => true)

/-- First pattern of `ToolDetector.PYTHON_TOOL_PATTERNS` (line 39), the
decorator `@mcp.tool(...)`/`@server.tool(...)` followed by a function
definition, with the optional explicit name as group 1 and the function
identifier as group 2. -/
def pyPat1 : RE := reSeqL
  [rc '@',
   RE.alt (reStr "mcp") (reStr "server"),
   rc '.', reStr "tool", rc '(',
   star0 schar,
   reOpt (reSeqL [reStr "name=", quoteCls, RE.group 1 (rePlus notQuoteCls), quoteCls]),
   star0 schar,
   rc ')',
   star0 schar,
   reOpt (reSeqL [reStr "async", rePlus schar]),
   reStr "def", rePlus schar,
   RE.group 2 (rePlus wchar)]

/-- Second pattern of `PYTHON_TOOL_PATTERNS` (line 41), the bare `@tool(...)`
decorator. -/
def pyPat2 : RE := reSeqL
  [rc '@', reStr "tool", rc '(',
   star0 schar,
   reOpt (reSeqL [reStr "name=", quoteCls, RE.group 1 (rePlus notQuoteCls), quoteCls]),
   star0 schar,
   rc ')',
   star0 schar,
   reOpt (reSeqL [reStr "async", rePlus schar]),
   reStr "def", rePlus schar,
   RE.group 2 (rePlus wchar)]

/-- `PYTHON_TOOL_PATTERNS` (`tool_detector.py`, lines 37-42). -/
def PYTHON_TOOL_PATTERNS : List RE := [pyPat1, pyPat2]

/-- The docstring pattern of `_detect_python_tools` (line 87): function name
as group 1, docstring body as group 2; compiled with `re.DOTALL`, so `.`
matches newlines. -/
def docPat : RE := reSeqL
  [reStr "def", rePlus schar,
   RE.group 1 (rePlus wchar),
   star0 schar,
   rc '(',
   star0 (RE.cls (fun c => !(c = ')' : Bool))),
   rc ')',
   star0 schar,
   reOpt (reSeqL [reStr "->", RE.star true dotAll]),
   star0 schar,
   rc ':',
   star0 schar,
   reStr "\"\"\"",
   RE.group 2 (rePlus (RE.cls (fun c => !(c = '"' : Bool)))),
   reStr "\"\"\""]

/-- First pattern of `TYPESCRIPT_TOOL_PATTERNS` (line 47): the `@Tool(...)`
decorator, capturing the following identifier as group 1. -/
def tsPat1 : RE := reSeqL
  [reStr "@Tool(\x7b",
   star0 (RE.cls (fun c => !(c = '\x7d' : Bool))),
   reStr "\x7d)",
   star0 schar,
   reOpt (reSeqL [reStr "async", rePlus schar]),
   reOpt (reSeqL [reStr "function", rePlus schar]),
   RE.group 1 (rePlus wchar)]

/-- Second pattern of `TYPESCRIPT_TOOL_PATTERNS` (line 49): the
`setRequestHandler(ListToolsRequestSchema, ...)` registration, capturing the
first `name:` value; `re.DOTALL` makes `.*?` span lines. -/
def tsPat2 : RE := reSeqL
  [reStr "setRequestHandler",
   star0 schar, rc '(', star0 schar,
   reStr "ListToolsRequestSchema",
   star0 (RE.cls (fun c => !(c = ')' : Bool))),
   rc ')', star0 schar,
   RE.star true dotAll,
   reStr "name:", star0 schar, quoteCls,
   RE.group 1 (rePlus notQuoteCls),
   quoteCls]

/-- `TYPESCRIPT_TOOL_PATTERNS` (`tool_detector.py`, lines 45-50). -/
def TYPESCRIPT_TOOL_PATTERNS : List RE := [tsPat1, tsPat2]

/-- The per-tool description search of `_detect_typescript_tools` (line 138):
the `@Tool({...})` decorator whose object literal carries a `description:`
field, anchored on the already-found tool name (`re.escape` of an identifier
is the identifier itself). -/
def tsDescPat (tool_name : String) : RE := reSeqL
  [reStr "@Tool(\x7b",
   star0 (RE.cls (fun c => !(c = '\x7d' : Bool))),
   reStr "description:", star0 schar, quoteCls,
   RE.group 1 (rePlus notQuoteCls),
   quoteCls,
   star0 (RE.cls (fun c => !(c = '\x7d' : Bool))),
   reStr "\x7d)",
   star0 schar,
   reOpt (reSeqL [reStr "async", rePlus schar]),
   reOpt (reSeqL [reStr "function", rePlus schar]),
   reStr tool_name]

/-- Concatenation of the images of a list, in order (`flatMap`, kept as a
local definition so its equations are available directly). -/
def flatMapL {α β : Type} (f : α → List β) : List α → List β
  | [] => []
  | a :: t => f a ++ flatMapL f t

/-- Whether `pat` is a prefix of `l`. -/
def isPreL : List Char → List Char → Bool
  | [], _ => true
  | _ :: _, [] => false
  | c :: p, d :: l => c = d && isPreL p l

/-- Scan of `hasSub`. -/
def hasSubL (sub : List Char) : List Char → Bool
  | [] => isPreL sub []
  | c :: t => isPreL sub (c :: t) || hasSubL sub t

/-- Python `sub in s` on strings: substring containment. -/
def hasSub (s sub : String) : Bool := hasSubL sub.data s.data

/-- Whether the file name carries the given extension (the `rglob` patterns
`*.py`, `*.ts`, `*.tsx` of the source match on the name's suffix). -/
def strEndsWith (s suf : String) : Bool := isPreL suf.data.reverse s.data.reverse

/-- `MCPTool` (`tool_detector.py`, lines 12-30): name, file path, description
(possibly empty), line number (0 when unknown). -/
structure MCPTool where
  name : String
  file_path : String
  description : String
  line_number : Nat
deriving DecidableEq

/-- Python `str.strip()` on ASCII text: drop whitespace from both ends. -/
def pyStrip (s : String) : String :=
  String.mk (((s.data.dropWhile isPySpace).reverse.dropWhile isPySpace).reverse)

/-- `docstring.strip().split('\n')[0]`: the first line of the stripped text. -/
def firstLine (s : String) : String :=
  String.mk (s.data.takeWhile (fun c => !(c = '\n' : Bool)))

/-- `ToolDetector._detect_python_tools` (`tool_detector.py`, lines 80-121)
applied to one file, given its repository-relative path and its contents
(`none` when the read raises, which the source catches, skipping the file).
First the docstring dictionary is built (first line of each stripped
docstring, later matches overwriting), then every pattern's matches are
turned into tool records: the explicit decorator name (group 1) when
present and non-empty, otherwise the function identifier (group 2); the
line number is 1 plus the newlines before the match. -/
def detect_python_tools (relPath : String) (fileContent : Option String) : List MCPTool :=
  match fileContent with
  | none => []
  | some content =>
    let s := content.data
    let docstrings : List (String × String) :=
      (finditer docPat s).foldl
        (fun d m =>
          match capGet m.caps 1, capGet m.caps 2 with
          | some func_name, some docstring =>
            dictSet d func_name (firstLine (pyStrip docstring))
          | _, _ => d)
        []
    flatMapL
      (fun pat =>
        (finditer pat s).map fun m =>
          let g2 := (capGet m.caps 2).getD ""
          let names : String × String :=
            match capGet m.caps 1 with
            | some n => if n = "" then (g2, g2) else (n, g2)
            | none => (g2, g2)
          { name := names.1
            file_path := relPath
            description := (dlookup docstrings names.2).getD ""
            line_number := (s.take m.mstart).count '\n' + 1 })
      PYTHON_TOOL_PATTERNS

/-- `ToolDetector._detect_typescript_tools` (`tool_detector.py`, lines
123-152) applied to one file: each pattern match yields a tool named by
group 1, with the description recovered by the secondary `re.search` for a
`description:` field in a `@Tool` decorator ending in the same name. -/
def detect_typescript_tools (relPath : String) (fileContent : Option String) :
    List MCPTool :=
  match fileContent with
  | none => []
  | some content =>
    let s := content.data
    flatMapL
      (fun pat =>
        (finditer pat s).map fun m =>
          let tool_name := (capGet m.caps 1).getD ""
          { name := tool_name
            file_path := relPath
            description :=
              match searchFirst (tsDescPat tool_name) s with
              | some m2 => (capGet m2.caps 1).getD ""
              | none => ""
            line_number := (s.take m.mstart).count '\n' + 1 })
      TYPESCRIPT_TOOL_PATTERNS

/-- The parsed view of `package.json` that `_is_mcp_server` consumes: the
keys of `dependencies` and `devDependencies` when `json.loads` succeeds,
or `malformed` when it raises (swallowed by the source). -/
inductive PkgJson where
  | malformed : PkgJson
  | obj : List String → List String → PkgJson

/-- A cloned repository: root path, the files below it (repository-relative
path and contents, `none` when reading the file raises), and `package.json`
in parsed form (`none` when the file does not exist). -/
structure Repo where
  root : String
  files : List (String × Option String)
  packageJson : Option PkgJson

/-- The Python-manifest loop of `_is_mcp_server` (`tool_detector.py`, lines
157-163): for each dependency file that exists, read it (this read is not
guarded, so a failing read propagates — result `none`) and report `true` at
the first content containing `mcp` or `fastmcp`. -/
def checkPyDeps (files : List (String × Option String)) : List String → Option Bool
  | [] => some false
  | dep_file :: rest =>
    match dlookup files dep_file with
    | none => checkPyDeps files rest
    | some none => none
    | some (some content) =>
      if hasSub content "mcp" || hasSub content "fastmcp" then some true
      else checkPyDeps files rest

/-- `ToolDetector._is_mcp_server` (`tool_detector.py`, lines 154-176): the
Python dependency manifests first, then the `package.json` dependency keys
(where `json` failures are swallowed and count as no reference). -/
def is_mcp_server (repo : Repo) : Option Bool :=
  match checkPyDeps repo.files ["requirements.txt", "pyproject.toml", "Pipfile"] with
  | none => none
  | some true => some true
  | some false =>
    match repo.packageJson with
    | some (PkgJson.obj deps devDeps) =>
      if (deps ++ devDeps).any (fun dep =>
          hasSub dep "modelcontextprotocol" || hasSub dep "mcp")
      then some true else some false
    | _ => some false

/-- `self.repo_path.rglob('*.py')`. -/
def pyFiles (files : List (String × Option String)) : List (String × Option String) :=
  files.filter (fun f => strEndsWith f.1 ".py")

/-- `rglob('*.ts')` then `rglob('*.tsx')`, concatenated as on line 66. -/
def tsFiles (files : List (String × Option String)) : List (String × Option String) :=
  files.filter (fun f => strEndsWith f.1 ".ts")
    ++ files.filter (fun f => strEndsWith f.1 ".tsx")

/-- The pattern-detection phase of `detect_tools` (lines 60-68): every Python
file, then every TypeScript file, each contributing its records in order. -/
def patternTools (repo : Repo) : List MCPTool :=
  flatMapL (fun f => detect_python_tools f.1 f.2) (pyFiles repo.files)
    ++ flatMapL (fun f => detect_typescript_tools f.1 f.2) (tsFiles repo.files)

/-- `ToolDetector.detect_tools` (`tool_detector.py`, lines 56-78): the
pattern phase, and when it found nothing, the `_is_mcp_server` fallback,
which emits the single synthetic record or nothing. `none` models an
exception escaping `detect_tools` (only possible from the unguarded manifest
reads of `_is_mcp_server`). -/
def detect_tools (repo : Repo) : Option (List MCPTool) :=
  match patternTools repo with
  | [] =>
    match is_mcp_server repo with
    | none => none
    | some true =>
      some [{ name := "unknown"
              file_path := repo.root
              description := "MCP server with undetected tools"
              line_number := 0 }]
    | some false => some []
  | t :: ts => some (t :: ts)

/-- A concrete results directory used to instantiate the aggregation
theorems: an existing per-repository file for `acme/api` holding a prior
`trivy` entry, and the temporary file of a fresh `trivy` scan. -/
def fsExample : FS :=
  [("acme-api-violations.json",
     [("trivy", [⟨some "LOW", none⟩]), ("grype", [])]),
   ("trivy-violations.json",
     [("trivy", [⟨some "HIGH", some "2.0"⟩])])]

theorem sevPriority_cases (s : String) :
    s = "CRITICAL" ∨ s = "HIGH" ∨ s = "MEDIUM" ∨ s = "LOW" ∨ s = "UNKNOWN" ∨
    s = "WARNING" ∨ s = "NONE" ∨ sevPriority s = 999 := by
  by_cases h1 : ("CRITICAL" : String) = s
  · exact Or.inl h1.symm
  by_cases h2 : ("HIGH" : String) = s
  · exact Or.inr (Or.inl h2.symm)
  by_cases h3 : ("MEDIUM" : String) = s
  · exact Or.inr (Or.inr (Or.inl h3.symm))
  by_cases h4 : ("LOW" : String) = s
  · exact Or.inr (Or.inr (Or.inr (Or.inl h4.symm)))
  by_cases h5 : ("UNKNOWN" : String) = s
  · exact Or.inr (Or.inr (Or.inr (Or.inr (Or.inl h5.symm))))
  by_cases h6 : ("WARNING" : String) = s
  · exact Or.inr (Or.inr (Or.inr (Or.inr (Or.inr (Or.inl h6.symm)))))
  by_cases h7 : ("NONE" : String) = s
  · exact Or.inr (Or.inr (Or.inr (Or.inr (Or.inr (Or.inr (Or.inl h7.symm))))))
  refine Or.inr (Or.inr (Or.inr (Or.inr (Or.inr (Or.inr (Or.inr ?_))))))
  simp [sevPriority, SEVERITY_ORDER, dlookup, h1, h2, h3, h4, h5, h6, h7]

theorem sevPriority_eq_zero (s : String) (h : sevPriority s = 0) : s = "CRITICAL" := by
  rcases sevPriority_cases s with hc|hc|hc|hc|hc|hc|hc|hc
  · exact hc
  · subst hc; revert h; decide
  · subst hc; revert h; decide
  · subst hc; revert h; decide
  · subst hc; revert h; decide
  · subst hc; revert h; decide
  · subst hc; revert h; decide
  · omega

theorem gwsStep_eq (ws : String) (wp : Nat) (v : Violation) :
    gwsStep (ws, wp) v =
      if sevPriority (sevOf v) < wp then (sevOf v, sevPriority (sevOf v)) else (ws, wp) := rfl

theorem gwsFold_spec (l : List Violation) : ∀ ws : String,
    (l.foldl gwsStep (ws, sevPriority ws)).2
        = sevPriority (l.foldl gwsStep (ws, sevPriority ws)).1
  ∧ (l.foldl gwsStep (ws, sevPriority ws)).2 ≤ sevPriority ws
  ∧ (∀ s ∈ l.map sevOf, (l.foldl gwsStep (ws, sevPriority ws)).2 ≤ sevPriority s)
  ∧ ((l.foldl gwsStep (ws, sevPriority ws)).1 = ws
      ∨ (l.foldl gwsStep (ws, sevPriority ws)).1 ∈ l.map sevOf) := by
  induction l with
  | nil => intro ws; exact ⟨rfl, le_refl _, by simp, Or.inl rfl⟩
  | cons v t ih =>
    intro ws
    rw [List.foldl_cons, gwsStep_eq]
    by_cases h : sevPriority (sevOf v) < sevPriority ws
    · rw [if_pos h]
      obtain ⟨h1, h2, h3, h4⟩ := ih (sevOf v)
      refine ⟨h1, le_trans h2 (le_of_lt h), ?_, ?_⟩
      · intro s hs
        rw [List.map_cons] at hs
        rcases List.mem_cons.mp hs with hs' | hs'
        · rw [hs']; exact h2
        · exact h3 s hs'
      · rcases h4 with h4 | h4
        · exact Or.inr (by rw [h4, List.map_cons]; exact List.mem_cons_self _ _)
        · exact Or.inr (by rw [List.map_cons]; exact List.mem_cons_of_mem _ h4)
    · rw [if_neg h]
      obtain ⟨h1, h2, h3, h4⟩ := ih ws
      refine ⟨h1, h2, ?_, ?_⟩
      · intro s hs
        rw [List.map_cons] at hs
        rcases List.mem_cons.mp hs with hs' | hs'
        · rw [hs']; exact le_trans h2 (le_of_not_lt h)
        · exact h3 s hs'
      · rcases h4 with h4 | h4
        · exact Or.inl h4
        · exact Or.inr (by rw [List.map_cons]; exact List.mem_cons_of_mem _ h4)

/-- Claim C1 (corrected part): the claim reads `get_worst_severity` as
returning, for a non-empty list, the severity value present in the list that
comes first in the order extended with a bucket for unrecognized values; but
the code never selects an unrecognized severity, so on a list containing only
the unrecognized severity `"FOO"` it returns `"NONE"`, a value not present
in the list at all. -/
theorem worst_severity_counterexample :
    get_worst_severity [⟨some "FOO", none⟩] = "NONE"
  ∧ ¬ ("NONE" ∈ [Violation.mk (some "FOO") none].map sevOf) := by decide

/-- Claim C1 (amended): `get_worst_severity` returns `"NONE"` on the empty
list; on any list containing at least one recognized severity it returns a
present severity of minimal `SEVERITY_ORDER` rank; and unrecognized
severities (rank 999) are never selected — a non-empty list with only
unrecognized severities yields `"NONE"`. -/
theorem worst_severity_spec :
    get_worst_severity [] = "NONE"
  ∧ (∀ (l : List Violation) (s : String), s ∈ l.map sevOf → sevPriority s ≠ 999 →
      get_worst_severity l ∈ l.map sevOf
      ∧ ∀ s2 ∈ l.map sevOf, sevPriority (get_worst_severity l) ≤ sevPriority s2)
  ∧ (∀ l : List Violation, l ≠ [] → (∀ s ∈ l.map sevOf, sevPriority s = 999) →
      get_worst_severity l = "NONE") := by
  refine ⟨rfl, ?_, ?_⟩
  · intro l s hs hs999
    cases l with
    | nil => simp at hs
    | cons v t =>
      obtain ⟨h1, h2, h3, h4⟩ := gwsFold_spec (v :: t) "NONE"
      have hgws : get_worst_severity (v :: t)
          = ((v :: t).foldl gwsStep ("NONE", sevPriority "NONE")).1 := rfl
      rw [hgws]
      constructor
      · rcases h4 with h4 | h4
        · have hle := h3 s hs
          have e6 : sevPriority "NONE" = 6 := by decide
          rw [h4]
          rcases sevPriority_cases s with hc|hc|hc|hc|hc|hc|hc|hc
          · subst hc
            have e0 : sevPriority "CRITICAL" = 0 := by decide
            rw [h4] at h1; omega
          · subst hc
            have e0 : sevPriority "HIGH" = 1 := by decide
            rw [h4] at h1; omega
          · subst hc
            have e0 : sevPriority "MEDIUM" = 2 := by decide
            rw [h4] at h1; omega
          · subst hc
            have e0 : sevPriority "LOW" = 3 := by decide
            rw [h4] at h1; omega
          · subst hc
            have e0 : sevPriority "UNKNOWN" = 4 := by decide
            rw [h4] at h1; omega
          · subst hc
            have e0 : sevPriority "WARNING" = 5 := by decide
            rw [h4] at h1; omega
          · exact hc ▸ hs
          · exact absurd hc hs999
        · exact h4
      · intro s2 hs2
        have := h3 s2 hs2
        omega
  · intro l hne hall
    cases l with
    | nil => exact absurd rfl hne
    | cons v t =>
      obtain ⟨h1, h2, h3, h4⟩ := gwsFold_spec (v :: t) "NONE"
      have hgws : get_worst_severity (v :: t)
          = ((v :: t).foldl gwsStep ("NONE", sevPriority "NONE")).1 := rfl
      rw [hgws]
      rcases h4 with h4 | h4
      · exact h4
      · have h999 := hall _ h4
        have e6 : sevPriority "NONE" = 6 := by decide
        omega

theorem worst_severity_spec_witness :
    get_worst_severity [⟨some "LOW", none⟩, ⟨some "HIGH", none⟩]
        ∈ [Violation.mk (some "LOW") none, Violation.mk (some "HIGH") none].map sevOf
  ∧ sevPriority (get_worst_severity [⟨some "LOW", none⟩, ⟨some "HIGH", none⟩])
        ≤ sevPriority "LOW"
  ∧ get_worst_severity [⟨some "FOO", none⟩, ⟨some "BAR", none⟩] = "NONE" :=
  ⟨(worst_severity_spec.2.1 _ "HIGH" (by decide) (by decide)).1,
   (worst_severity_spec.2.1 [⟨some "LOW", none⟩, ⟨some "HIGH", none⟩] "HIGH"
      (by decide) (by decide)).2 "LOW" (by decide),
   worst_severity_spec.2.2 _ (by decide) (by decide)⟩

theorem dlookup_dincr_none (c : List (String × Nat)) (k q : String)
    (h : dlookup c q = none) : dlookup (dincr c k) q = none := by
  induction c with
  | nil => simpa [dincr] using h
  | cons e t ih =>
    obtain ⟨k0, v0⟩ := e
    simp only [dlookup] at h
    by_cases hq : k0 = q
    · rw [if_pos hq] at h; exact absurd h (by simp)
    · rw [if_neg hq] at h
      simp only [dincr]
      by_cases hk : k0 = k
      · rw [if_pos hk]
        simp only [dlookup, if_neg hq]
        exact h
      · rw [if_neg hk]
        simp only [dlookup, if_neg hq]
        exact ih h

theorem count_inv (l : List Violation) (c : List (String × Nat))
    (hc : dlookup c "UNKNOWN" = none) :
    dlookup (l.foldl cbsStep c) "UNKNOWN" = none := by
  induction l generalizing c with
  | nil => exact hc
  | cons v t ih =>
    rw [List.foldl_cons]
    by_cases hs : (dlookup c (sevOf v)).isSome
    · have : cbsStep c v = dincr c (sevOf v) := by simp [cbsStep, hs]
      rw [this]
      exact ih _ (dlookup_dincr_none c (sevOf v) _ hc)
    · have : cbsStep c v = c := by simp [cbsStep, hs]
      rw [this]
      exact ih _ hc

theorem cbsStep_missing (c : List (String × Nat)) (v : Violation)
    (hv : v.severity = none) (hc : dlookup c "UNKNOWN" = none) : cbsStep c v = c := by
  simp [cbsStep, sevOf, hv, hc]

theorem gws_stay_unknown (t : List Violation) (hall : ∀ v ∈ t, v.severity = none) :
    t.foldl gwsStep ("UNKNOWN", sevPriority "UNKNOWN") = ("UNKNOWN", sevPriority "UNKNOWN") := by
  induction t with
  | nil => rfl
  | cons w r ih =>
    rw [List.foldl_cons]
    have hw : w.severity = none := hall w (by simp)
    have hsev : sevOf w = "UNKNOWN" := by simp [sevOf, hw]
    have hstep : gwsStep ("UNKNOWN", sevPriority "UNKNOWN") w
        = ("UNKNOWN", sevPriority "UNKNOWN") := by
      rw [gwsStep_eq, hsev, if_neg (lt_irrefl _)]
    rw [hstep]
    exact ih (fun v hv => hall v (by simp [hv]))

/-- Claim C10: a violation record without a `severity` key is read as
`"UNKNOWN"`: `count_by_severity` never counts it in the
CRITICAL/HIGH/MEDIUM/LOW columns (removing it does not change the counts),
and a non-empty list of only such records has worst severity `"UNKNOWN"`,
not `"NONE"`. -/
theorem missing_severity_unknown :
    (∀ (l1 l2 : List Violation) (v : Violation), v.severity = none →
      count_by_severity (l1 ++ v :: l2) = count_by_severity (l1 ++ l2))
  ∧ (∀ l : List Violation, l ≠ [] → (∀ v ∈ l, v.severity = none) →
      get_worst_severity l = "UNKNOWN") := by
  constructor
  · intro l1 l2 v hv
    have hinv : dlookup
        (List.foldl cbsStep [("CRITICAL", 0), ("HIGH", 0), ("MEDIUM", 0), ("LOW", 0)] l1)
        "UNKNOWN" = none :=
      count_inv l1 _ (by decide)
    simp only [count_by_severity, List.foldl_append, List.foldl_cons]
    rw [cbsStep_missing _ v hv hinv]
  · intro l hne hall
    cases l with
    | nil => exact absurd rfl hne
    | cons v t =>
      have hv : v.severity = none := hall v (by simp)
      have hsev : sevOf v = "UNKNOWN" := by simp [sevOf, hv]
      have hstep : gwsStep ("NONE", sevPriority "NONE") v
          = ("UNKNOWN", sevPriority "UNKNOWN") := by
        rw [gwsStep_eq, hsev, if_pos (by decide)]
      have hgws : get_worst_severity (v :: t)
          = ((v :: t).foldl gwsStep ("NONE", sevPriority "NONE")).1 := rfl
      rw [hgws, List.foldl_cons, hstep,
        gws_stay_unknown t (fun w hw => hall w (by simp [hw]))]

theorem gws_critical (l : List Violation) (h : "CRITICAL" ∈ l.map sevOf) :
    get_worst_severity l = "CRITICAL" := by
  cases l with
  | nil => simp at h
  | cons v t =>
    obtain ⟨h1, h2, h3, h4⟩ := gwsFold_spec (v :: t) "NONE"
    have hle := h3 "CRITICAL" h
    have e0 : sevPriority "CRITICAL" = 0 := by decide
    have hz : sevPriority ((v :: t).foldl gwsStep ("NONE", sevPriority "NONE")).1 = 0 := by
      omega
    show ((v :: t).foldl gwsStep ("NONE", sevPriority "NONE")).1 = "CRITICAL"
    exact sevPriority_eq_zero _ hz

theorem makeRow_sort_key (org repo : String) (sm : ScannerMap) :
    (makeRow org repo sm).sort_key
      = (-(sevPriority (get_worst_severity (flattenScanners sm)) : Int),
         org ++ "/" ++ repo) := rfl

/-- Claim C2: summary rows are sorted ascending by
`(-severity_priority, org_repo)`: a repository with a CRITICAL finding sorts
after a repository with no findings, and repositories of equal
worst-severity rank are ordered alphabetically by their `org/repo` string. -/
theorem summary_rows_order :
    (∀ (orgA repoA orgB repoB : String) (sA sB : ScannerMap),
      "CRITICAL" ∈ (flattenScanners sA).map sevOf →
      flattenScanners sB = [] →
      generate_summary_rows [(orgA, repoA, sA), (orgB, repoB, sB)]
        = [makeRow orgB repoB sB, makeRow orgA repoA sA])
  ∧ (∀ (org1 repo1 org2 repo2 : String) (s1 s2 : ScannerMap),
      sevPriority (get_worst_severity (flattenScanners s1))
        = sevPriority (get_worst_severity (flattenScanners s2)) →
      strLtL (org1 ++ "/" ++ repo1).data (org2 ++ "/" ++ repo2).data = true →
      generate_summary_rows [(org2, repo2, s2), (org1, repo1, s1)]
        = [makeRow org1 repo1 s1, makeRow org2 repo2 s2]) := by
  constructor
  · intro orgA repoA orgB repoB sA sB hcrit hB0
    have hA := gws_critical (flattenScanners sA) hcrit
    have hBn : get_worst_severity (flattenScanners sB) = "NONE" := by rw [hB0]; rfl
    have hkey : keyLE (makeRow orgA repoA sA).sort_key
        (makeRow orgB repoB sB).sort_key = false := by
      rw [makeRow_sort_key, makeRow_sort_key, hA, hBn]
      show (if (-(sevPriority "CRITICAL" : Int)) = (-(sevPriority "NONE" : Int))
            then strLeB (orgA ++ "/" ++ repoA) (orgB ++ "/" ++ repoB)
            else decide ((-(sevPriority "CRITICAL" : Int))
              < (-(sevPriority "NONE" : Int)))) = false
      rw [if_neg (by decide)]
      decide
    show sortRows [makeRow orgA repoA sA, makeRow orgB repoB sB] = _
    have hsort : sortRows [makeRow orgA repoA sA, makeRow orgB repoB sB]
        = insertRow (makeRow orgB repoB sB) [makeRow orgA repoA sA] := rfl
    rw [hsort]
    simp only [insertRow, hkey, Bool.false_eq_true, if_false]
  · intro org1 repo1 org2 repo2 s1 s2 hp hlt
    have hkey : keyLE (makeRow org2 repo2 s2).sort_key
        (makeRow org1 repo1 s1).sort_key = false := by
      rw [makeRow_sort_key, makeRow_sort_key]
      show (if (-(sevPriority (get_worst_severity (flattenScanners s2)) : Int))
              = (-(sevPriority (get_worst_severity (flattenScanners s1)) : Int))
            then strLeB (org2 ++ "/" ++ repo2) (org1 ++ "/" ++ repo1)
            else decide ((-(sevPriority (get_worst_severity (flattenScanners s2)) : Int))
              < (-(sevPriority (get_worst_severity (flattenScanners s1)) : Int)))) = false
      rw [if_pos (by rw [hp])]
      show (!(strLtL (org1 ++ "/" ++ repo1).data (org2 ++ "/" ++ repo2).data)) = false
      rw [hlt]; rfl
    show sortRows [makeRow org2 repo2 s2, makeRow org1 repo1 s1] = _
    have hsort : sortRows [makeRow org2 repo2 s2, makeRow org1 repo1 s1]
        = insertRow (makeRow org1 repo1 s1) [makeRow org2 repo2 s2] := rfl
    rw [hsort]
    simp only [insertRow, hkey, Bool.false_eq_true, if_false]

theorem summary_rows_order_witness :
    generate_summary_rows
        [("zeta", "crit", [("scan", [⟨some "CRITICAL", none⟩])]),
         ("alpha", "clean", [])]
      = [makeRow "alpha" "clean" [],
         makeRow "zeta" "crit" [("scan", [⟨some "CRITICAL", none⟩])]]
  ∧ generate_summary_rows [(("b" : String), ("y" : String), ([] : ScannerMap)), ("a", "x", [])]
      = [makeRow "a" "x" [], makeRow "b" "y" []] :=
  ⟨summary_rows_order.1 "zeta" "crit" "alpha" "clean" _ _ (by decide) rfl,
   summary_rows_order.2 "a" "x" "b" "y" [] [] rfl (by decide)⟩

theorem missing_severity_unknown_witness :
    count_by_severity [⟨some "HIGH", none⟩, ⟨none, none⟩]
        = count_by_severity [⟨some "HIGH", none⟩]
  ∧ get_worst_severity [⟨none, none⟩, ⟨none, some "1.0"⟩] = "UNKNOWN" :=
  ⟨missing_severity_unknown.1 [⟨some "HIGH", none⟩] [] ⟨none, none⟩ rfl,
   missing_severity_unknown.2 _ (by decide) (by decide)⟩

theorem dlookup_dictSet {α : Type} (m : List (String × α)) (k q : String) (v : α) :
    dlookup (dictSet m k v) q = if k = q then some v else dlookup m q := by
  induction m with
  | nil => rfl
  | cons e t ih =>
    obtain ⟨k0, v0⟩ := e
    simp only [dictSet]
    by_cases hk : k0 = k
    · subst hk
      rw [if_pos rfl]
      simp only [dlookup]
      by_cases hq : k0 = q
      · simp [hq]
      · simp [hq]
    · rw [if_neg hk]
      simp only [dlookup, ih]
      by_cases hq : k0 = q
      · have hkq : ¬ k = q := fun hx => hk (hq.trans hx.symm)
        simp [hq, hkq]
      · by_cases hk2 : k = q
        · simp [hq, hk2]
        · simp [hq, hk2]

theorem dlookup_append {α : Type} (a b : List (String × α)) (q : String) :
    dlookup (a ++ b) q =
      match dlookup a q with
      | some v => some v
      | none => dlookup b q := by
  induction a with
  | nil => rfl
  | cons e t ih =>
    obtain ⟨k0, v0⟩ := e
    simp only [List.cons_append, dlookup]
    by_cases hq : k0 = q
    · simp [hq]
    · simp only [if_neg hq]
      exact ih

theorem lookupLast_cons {α : Type} (k : String) (v : α) (rest : List (String × α))
    (q : String) :
    lookupLast ((k, v) :: rest) q =
      match lookupLast rest q with
      | some w => some w
      | none => if k = q then some v else none := by
  simp only [lookupLast, List.reverse_cons, dlookup_append]
  cases dlookup rest.reverse q with
  | none => rfl
  | some w => rfl

theorem dlookup_merge (d : ScannerMap) : ∀ (agg : ScannerMap) (q : String),
    dlookup (mergeScannerData agg d) q =
      match lookupLast d q with
      | some w => some w
      | none => dlookup agg q := by
  induction d with
  | nil => intro agg q; rfl
  | cons e rest ih =>
    intro agg q
    obtain ⟨k0, v0⟩ := e
    have hm : mergeScannerData agg ((k0, v0) :: rest)
        = mergeScannerData (dictSet agg k0 v0) rest := rfl
    rw [hm, ih, lookupLast_cons]
    cases hr : lookupLast rest q with
    | some w => rfl
    | none =>
      rw [dlookup_dictSet]
      by_cases hq : k0 = q
      · simp [hq]
      · simp [hq]

theorem aggFold_id (fs : FS) (names : List String) (agg : ScannerMap)
    (h : ∀ s ∈ names, dlookup fs (s ++ "-violations.json") = none) :
    names.foldl (aggStep fs) agg = agg := by
  induction names generalizing agg with
  | nil => rfl
  | cons n t ih =>
    rw [List.foldl_cons]
    have hn := h n (by simp)
    have hstep : aggStep fs agg n = agg := by simp [aggStep, hn]
    rw [hstep]
    exact ih _ (fun s hs => h s (by simp [hs]))

theorem aggFold_lookup (fs : FS) (S : String) (T : ScannerMap)
    (htemp : dlookup fs (S ++ "-violations.json") = some T)
    (names : List String) : ∀ (agg : ScannerMap) (q : String) (w : List Violation),
    S ∈ names →
    (∀ s ∈ names, s ≠ S → dlookup fs (s ++ "-violations.json") = none) →
    lookupLast T q = some w →
    dlookup (names.foldl (aggStep fs) agg) q = some w := by
  induction names with
  | nil => intro agg q w hS; simp at hS
  | cons n t ih =>
    intro agg q w hS hother hq
    rw [List.foldl_cons]
    by_cases hn : n = S
    · subst hn
      have hstep : aggStep fs agg n = mergeScannerData agg T := by simp [aggStep, htemp]
      rw [hstep]
      by_cases hSt : n ∈ t
      · exact ih _ q w hSt (fun s hs hne => hother s (by simp [hs]) hne) hq
      · have hrest : ∀ s ∈ t, dlookup fs (s ++ "-violations.json") = none := by
          intro s hs
          by_cases hsn : s = n
          · exact absurd (hsn ▸ hs) hSt
          · exact hother s (by simp [hs]) hsn
        rw [aggFold_id fs t _ hrest, dlookup_merge, hq]
    · have hnone := hother n (by simp) hn
      have hstep : aggStep fs agg n = agg := by simp [aggStep, hnone]
      rw [hstep]
      have hSt : S ∈ t := by
        rcases List.mem_cons.mp hS with hx | hx
        · exact absurd hx.symm hn
        · exact hx
      exact ih _ q w hSt (fun s hs hne => hother s (by simp [hs]) hne) hq

theorem mem_keys_dictSet {α : Type} (m : List (String × α)) (k q : String) (v : α)
    (h : q ∈ (dictSet m k v).map Prod.fst) : q = k ∨ q ∈ m.map Prod.fst := by
  induction m with
  | nil =>
    simp only [dictSet, List.map_cons, List.map_nil, List.mem_cons] at h
    rcases h with h | h
    · exact Or.inl h
    · simp at h
  | cons e t ih =>
    obtain ⟨k0, v0⟩ := e
    simp only [dictSet] at h
    by_cases hk : k0 = k
    · rw [if_pos hk] at h
      simp only [List.map_cons, List.mem_cons] at h
      rcases h with h | h
      · exact Or.inr (by rw [List.map_cons]; exact List.mem_cons.mpr (Or.inl h))
      · exact Or.inr (by rw [List.map_cons]; exact List.mem_cons_of_mem _ h)
    · rw [if_neg hk] at h
      simp only [List.map_cons, List.mem_cons] at h
      rcases h with h | h
      · exact Or.inr (by rw [List.map_cons]; exact List.mem_cons.mpr (Or.inl h))
      · rcases ih h with h2 | h2
        · exact Or.inl h2
        · exact Or.inr (by rw [List.map_cons]; exact List.mem_cons_of_mem _ h2)

theorem nodup_keys_dictSet {α : Type} (m : List (String × α)) (k : String) (v : α)
    (h : (m.map Prod.fst).Nodup) : ((dictSet m k v).map Prod.fst).Nodup := by
  induction m with
  | nil => simp [dictSet]
  | cons e t ih =>
    obtain ⟨k0, v0⟩ := e
    simp only [List.map_cons, List.nodup_cons] at h
    obtain ⟨hnotin, hnd⟩ := h
    simp only [dictSet]
    by_cases hk : k0 = k
    · rw [if_pos hk]
      simp only [List.map_cons, List.nodup_cons]
      exact ⟨hnotin, hnd⟩
    · rw [if_neg hk]
      simp only [List.map_cons, List.nodup_cons]
      refine ⟨?_, ih hnd⟩
      intro hmem
      rcases mem_keys_dictSet t k k0 v hmem with h2 | h2
      · exact hk h2
      · exact hnotin h2

theorem nodup_keys_merge (d : ScannerMap) : ∀ agg : ScannerMap,
    (agg.map Prod.fst).Nodup → ((mergeScannerData agg d).map Prod.fst).Nodup := by
  induction d with
  | nil => intro agg h; exact h
  | cons e rest ih =>
    intro agg h
    have hm : mergeScannerData agg (e :: rest)
        = mergeScannerData (dictSet agg e.1 e.2) rest := rfl
    rw [hm]
    exact ih _ (nodup_keys_dictSet agg e.1 e.2 h)

theorem nodup_keys_aggFold (fs : FS) (names : List String) : ∀ agg : ScannerMap,
    (agg.map Prod.fst).Nodup → ((names.foldl (aggStep fs) agg).map Prod.fst).Nodup := by
  induction names with
  | nil => intro agg h; exact h
  | cons n t ih =>
    intro agg h
    rw [List.foldl_cons]
    apply ih
    cases hn : dlookup fs (n ++ "-violations.json") with
    | none =>
      have hstep : aggStep fs agg n = agg := by simp [aggStep, hn]
      rw [hstep]; exact h
    | some data =>
      have hstep : aggStep fs agg n = mergeScannerData agg data := by simp [aggStep, hn]
      rw [hstep]
      exact nodup_keys_merge data agg h

/-- Claim C3: when `aggregate_results` merges the temporary file
`{S}-violations.json` (the only temporary file among the known scanners),
the prior entry for `S` in the existing aggregate is replaced entirely by
the temporary file's contents for `S` — never concatenated; re-merging the
same scanner file leaves the mapping unchanged (lookup-wise, which is dict
equality); and no duplicate scanner keys are introduced. -/
theorem aggregate_replaces_scanner_entry
    (names : List String) (S org repo : String) (fs : FS)
    (M T : ScannerMap) (L Lold : List Violation)
    (hS : S ∈ names)
    (hrepo : dlookup fs (org ++ "-" ++ repo ++ "-violations.json") = some M)
    (_hold : dlookup M S = some Lold)
    (htemp : dlookup fs (S ++ "-violations.json") = some T)
    (hT : lookupLast T S = some L)
    (hother : ∀ s ∈ names, s ≠ S → dlookup fs (s ++ "-violations.json") = none) :
    dlookup (aggregate_results names org repo fs) S = some L
  ∧ (∀ q, dlookup (mergeScannerData (aggregate_results names org repo fs) T) q
        = dlookup (aggregate_results names org repo fs) q)
  ∧ ((M.map Prod.fst).Nodup → ((aggregate_results names org repo fs).map Prod.fst).Nodup) := by
  have hinit : aggregate_results names org repo fs = names.foldl (aggStep fs) M := by
    simp [aggregate_results, hrepo]
  refine ⟨?_, ?_, ?_⟩
  · rw [hinit]
    exact aggFold_lookup fs S T htemp names M S L hS hother hT
  · intro q
    rw [dlookup_merge]
    cases hq : lookupLast T q with
    | some w =>
      rw [hinit]
      exact (aggFold_lookup fs S T htemp names M q w hS hother hq).symm
    | none => rfl
  · intro hM
    rw [hinit]
    exact nodup_keys_aggFold fs names M hM

theorem aggregate_replaces_scanner_entry_witness :
    dlookup (aggregate_results ["trivy", "grype"] "acme" "api" fsExample) "trivy"
        = some [⟨some "HIGH", some "2.0"⟩]
  ∧ dlookup
        (mergeScannerData (aggregate_results ["trivy", "grype"] "acme" "api" fsExample)
          [("trivy", [⟨some "HIGH", some "2.0"⟩])]) "grype"
      = dlookup (aggregate_results ["trivy", "grype"] "acme" "api" fsExample) "grype"
  ∧ ((aggregate_results ["trivy", "grype"] "acme" "api" fsExample).map Prod.fst).Nodup := by
  have h := aggregate_replaces_scanner_entry ["trivy", "grype"] "trivy" "acme" "api"
    fsExample [("trivy", [⟨some "LOW", none⟩]), ("grype", [])]
    [("trivy", [⟨some "HIGH", some "2.0"⟩])]
    [⟨some "HIGH", some "2.0"⟩] [⟨some "LOW", none⟩]
    (by decide) (by decide) (by decide) (by decide) (by decide)
    (by decide)
  exact ⟨h.1, h.2.1 "grype", h.2.2 (by decide)⟩

theorem dlookup_dremove_self {α : Type} (f : List (String × α)) (n : String) :
    dlookup (dremove f n) n = none := by
  induction f with
  | nil => rfl
  | cons e t ih =>
    obtain ⟨k0, v0⟩ := e
    simp only [dremove]
    by_cases hk : k0 = n
    · rw [if_pos hk]; exact ih
    · rw [if_neg hk]
      simp only [dlookup, if_neg hk]
      exact ih

theorem dlookup_dremove_ne {α : Type} (f : List (String × α)) (n q : String)
    (h : ¬ n = q) : dlookup (dremove f n) q = dlookup f q := by
  induction f with
  | nil => rfl
  | cons e t ih =>
    obtain ⟨k0, v0⟩ := e
    simp only [dremove, dlookup]
    by_cases hk : k0 = n
    · rw [if_pos hk, if_neg (fun hx : k0 = q => h (hk ▸ hx)), ih]
    · rw [if_neg hk]
      simp only [dlookup, ih]

theorem dlookup_dremove_none {α : Type} (f : List (String × α)) (n q : String)
    (h : dlookup f q = none) : dlookup (dremove f n) q = none := by
  by_cases hq : n = q
  · subst hq; exact dlookup_dremove_self f n
  · rw [dlookup_dremove_ne f n q hq]; exact h

theorem remFold_ne (names : List String) (q : String)
    (h : ∀ s ∈ names, ¬ s ++ "-violations.json" = q) : ∀ f : FS,
    dlookup (names.foldl (fun f s => dremove f (s ++ "-violations.json")) f) q
      = dlookup f q := by
  induction names with
  | nil => intro f; rfl
  | cons n t ih =>
    intro f
    rw [List.foldl_cons, ih (fun s hs => h s (by simp [hs]))]
    exact dlookup_dremove_ne f _ q (h n (by simp))

theorem remFold_none (names : List String) (q : String) : ∀ f : FS,
    dlookup f q = none →
    dlookup (names.foldl (fun f s => dremove f (s ++ "-violations.json")) f) q = none := by
  induction names with
  | nil => intro f h; exact h
  | cons n t ih =>
    intro f h
    rw [List.foldl_cons]
    exact ih _ (dlookup_dremove_none f _ q h)

theorem remFold_mem (names : List String) (s : String) : ∀ f : FS, s ∈ names →
    dlookup (names.foldl (fun f s => dremove f (s ++ "-violations.json")) f)
      (s ++ "-violations.json") = none := by
  induction names with
  | nil => intro f hs; simp at hs
  | cons n t ih =>
    intro f hs
    rw [List.foldl_cons]
    rcases List.mem_cons.mp hs with h | h
    · subst h
      exact remFold_none t _ _ (dlookup_dremove_self f _)
    · exact ih _ h

/-- Claim C4: saving an aggregate and re-aggregating the same directory
returns exactly the saved mapping — `save_aggregated_results` deletes every
known scanner's temporary file, so `aggregate_results` finds only the
per-repository file it just wrote. The hypothesis records that no scanner's
temporary file name collides with the per-repository file name. -/
theorem save_aggregate_roundtrip (names : List String) (org repo : String)
    (results : ScannerMap) (fs : FS)
    (h : ∀ s ∈ names,
      ¬ s ++ "-violations.json" = org ++ "-" ++ repo ++ "-violations.json") :
    aggregate_results names org repo (save_aggregated_results names org repo results fs)
      = results := by
  have hsave : save_aggregated_results names org repo results fs
      = names.foldl (fun f s => dremove f (s ++ "-violations.json"))
          (dictSet fs (org ++ "-" ++ repo ++ "-violations.json") results) := rfl
  have hlook : dlookup (save_aggregated_results names org repo results fs)
      (org ++ "-" ++ repo ++ "-violations.json") = some results := by
    rw [hsave, remFold_ne names _ h, dlookup_dictSet, if_pos rfl]
  have htemps : ∀ s ∈ names,
      dlookup (save_aggregated_results names org repo results fs)
        (s ++ "-violations.json") = none := by
    intro s hs
    rw [hsave]
    exact remFold_mem names s _ hs
  have hagg : aggregate_results names org repo
      (save_aggregated_results names org repo results fs)
      = names.foldl (aggStep (save_aggregated_results names org repo results fs)) results := by
    simp [aggregate_results, hlook]
  rw [hagg]
  exact aggFold_id _ names results htemps

theorem save_aggregate_roundtrip_witness :
    aggregate_results ["trivy"] "acme" "api"
        (save_aggregated_results ["trivy"] "acme" "api"
          [("trivy", [⟨some "HIGH", some "1.2.3"⟩])]
          [("old-old-violations.json", [])])
      = [("trivy", [⟨some "HIGH", some "1.2.3"⟩])] :=
  save_aggregate_roundtrip ["trivy"] "acme" "api" _ _ (by decide)

set_option maxRecDepth 20000 in
/-- Claim C6: an explicit `name=` in the decorator wins over the function
identifier, the adjacent docstring's first line becomes the description, and
the line number is 1. -/
theorem detect_python_explicit_name :
    detect_python_tools "server.py"
        (some "@mcp.tool(name=\"foo\")\ndef bar(): \"\"\"Does X.\"\"\"")
      = [⟨"foo", "server.py", "Does X.", 1⟩] := by decide

set_option maxRecDepth 20000 in
/-- Claim C7: a bare `@tool()` decorator without `name=` names the tool after
the function identifier. -/
theorem detect_python_function_name :
    detect_python_tools "server.py" (some "@tool()\ndef baz(): pass")
      = [⟨"baz", "server.py", "", 1⟩] := by decide

theorem mem_flatMapL {α β : Type} (f : α → List β) (l : List α) (b : β)
    (h : b ∈ flatMapL f l) : ∃ a ∈ l, b ∈ f a := by
  induction l with
  | nil => simp [flatMapL] at h
  | cons x t ih =>
    simp only [flatMapL, List.mem_append] at h
    rcases h with h | h
    · exact ⟨x, by simp, h⟩
    · obtain ⟨a, ha, hb⟩ := ih h
      exact ⟨a, by simp [ha], hb⟩

set_option maxRecDepth 20000 in
/-- Claim C8: every TypeScript tool record's description is exactly what the
secondary `description:` search for its own tool name yields (empty when it
finds nothing), and on `@Tool({ name: "t1", description: "desc" })
function t1() {}` the detector yields exactly one record with description
`"desc"`. -/
theorem detect_typescript_description_attached :
    (∀ (path content : String) (t : MCPTool),
      t ∈ detect_typescript_tools path (some content) →
      t.description =
        match searchFirst (tsDescPat t.name) content.data with
        | some m2 => (capGet m2.caps 1).getD ""
        | none => "")
  ∧ detect_typescript_tools "server.ts"
        (some "@Tool(\x7b name: \"t1\", description: \"desc\" \x7d) function t1() \x7b\x7d")
      = [⟨"t1", "server.ts", "desc", 1⟩] := by
  constructor
  · intro path content t ht
    have ht2 : t ∈ flatMapL
        (fun pat =>
          (finditer pat content.data).map fun m =>
            { name := (capGet m.caps 1).getD ""
              file_path := path
              description :=
                match searchFirst (tsDescPat ((capGet m.caps 1).getD "")) content.data with
                | some m2 => (capGet m2.caps 1).getD ""
                | none => ""
              line_number := (content.data.take m.mstart).count '\n' + 1 })
        TYPESCRIPT_TOOL_PATTERNS := ht
    obtain ⟨pat, hpat, hmem⟩ := mem_flatMapL _ _ _ ht2
    rw [List.mem_map] at hmem
    obtain ⟨m, hm, rfl⟩ := hmem
    rfl
  · decide

set_option maxRecDepth 20000 in
theorem detect_typescript_description_attached_witness :
    (⟨"t1", "server.ts", "desc", 1⟩ : MCPTool).description =
      match searchFirst (tsDescPat (⟨"t1", "server.ts", "desc", 1⟩ : MCPTool).name)
          ("@Tool(\x7b name: \"t1\", description: \"desc\" \x7d) function t1() \x7b\x7d"
            : String).data with
      | some m2 => (capGet m2.caps 1).getD ""
      | none => "" :=
  detect_typescript_description_attached.1 "server.ts"
    "@Tool(\x7b name: \"t1\", description: \"desc\" \x7d) function t1() \x7b\x7d"
    ⟨"t1", "server.ts", "desc", 1⟩ (by decide)

/-- Claim C5: with zero pattern-detected tools, `detect_tools` emits exactly
the one synthetic record when a dependency manifest references MCP (in
particular when `requirements.txt` mentions `fastmcp`), and the empty list
when the manifest check finds no reference. -/
theorem detect_tools_fallback (repo : Repo)
    (h0 : patternTools repo = []) :
    (is_mcp_server repo = some true →
      detect_tools repo
        = some [⟨"unknown", repo.root, "MCP server with undetected tools", 0⟩])
  ∧ (∀ c : String, dlookup repo.files "requirements.txt" = some (some c) →
      hasSub c "fastmcp" = true →
      detect_tools repo
        = some [⟨"unknown", repo.root, "MCP server with undetected tools", 0⟩])
  ∧ (is_mcp_server repo = some false → detect_tools repo = some []) := by
  have hd : detect_tools repo =
      match is_mcp_server repo with
      | none => none
      | some true => some [⟨"unknown", repo.root, "MCP server with undetected tools", 0⟩]
      | some false => some [] := by
    unfold detect_tools
    rw [h0]
  refine ⟨?_, ?_, ?_⟩
  · intro h; rw [hd, h]
  · intro c hc hsub
    have hcond : (hasSub c "mcp" || hasSub c "fastmcp") = true := by
      rw [hsub, Bool.or_true]
    have hchk : checkPyDeps repo.files ["requirements.txt", "pyproject.toml", "Pipfile"]
        = some true := by
      simp only [checkPyDeps]
      rw [hc]
      simp [hcond]
    have hmcp : is_mcp_server repo = some true := by
      unfold is_mcp_server
      rw [hchk]
    rw [hd, hmcp]
  · intro h; rw [hd, h]

theorem detect_tools_fallback_witness :
    detect_tools ⟨"/repo", [("requirements.txt", some "fastmcp==2.0")], none⟩
      = some [⟨"unknown", "/repo", "MCP server with undetected tools", 0⟩]
  ∧ detect_tools ⟨"/repo2", [("README.md", some "hello")], none⟩ = some [] := by
  constructor
  · exact (detect_tools_fallback ⟨"/repo", [("requirements.txt", some "fastmcp==2.0")], none⟩
      (by decide)).2.1 "fastmcp==2.0" (by decide) (by decide)
  · exact (detect_tools_fallback ⟨"/repo2", [("README.md", some "hello")], none⟩
      (by decide)).2.2 (by decide)

/-- Claim C9 (corrected part): the claim extends the swallow-and-continue
guarantee to every file of the repository, but a dependency manifest whose
read raises during the zero-tools fallback aborts `detect_tools`: with an
unreadable `requirements.txt` the exception escapes (`none`), while the same
repository without that file completes with `some []`. -/
theorem detect_tools_manifest_failure_aborts :
    detect_tools ⟨"/repo", [("requirements.txt", none)], none⟩ = none
  ∧ detect_tools ⟨"/repo", [], none⟩ = some [] := by decide

theorem detect_tools_eq (repo : Repo) :
    detect_tools repo =
      match patternTools repo with
      | [] =>
        match is_mcp_server repo with
        | none => none
        | some true =>
          some [⟨"unknown", repo.root, "MCP server with undetected tools", 0⟩]
        | some false => some []
      | t :: ts => some (t :: ts) := rfl

theorem patternTools_eq (root : String) (files : List (String × Option String))
    (pj : Option PkgJson) :
    patternTools ⟨root, files, pj⟩
      = flatMapL (fun f => detect_python_tools f.1 f.2) (pyFiles files)
        ++ flatMapL (fun f => detect_typescript_tools f.1 f.2) (tsFiles files) := rfl

theorem tsFiles_eq (files : List (String × Option String)) :
    tsFiles files = files.filter (fun f => strEndsWith f.1 ".ts")
      ++ files.filter (fun f => strEndsWith f.1 ".tsx") := rfl

theorem flatMapL_append {α β : Type} (f : α → List β) (l1 l2 : List α) :
    flatMapL f (l1 ++ l2) = flatMapL f l1 ++ flatMapL f l2 := by
  induction l1 with
  | nil => rfl
  | cons a t ih =>
    show f a ++ flatMapL f (t ++ l2) = (f a ++ flatMapL f t) ++ flatMapL f l2
    rw [ih, List.append_assoc]

theorem flatMapL_middle_nil {α β : Type} (f : α → List β) (l1 l2 : List α) (x : α)
    (hx : f x = []) : flatMapL f (l1 ++ x :: l2) = flatMapL f (l1 ++ l2) := by
  rw [flatMapL_append, flatMapL_append]
  simp [flatMapL, hx]

theorem isPreL_false_of_head (a b : Char) (p l : List Char) (hne : ¬ a = b) :
    isPreL (a :: p) (b :: l) = false := by
  show (decide (a = b) && isPreL p l) = false
  rw [decide_eq_false hne, Bool.false_and]

theorem strEndsWith_py (p : String) :
    strEndsWith p ".py" = isPreL ['y', 'p', '.'] p.data.reverse := rfl

theorem strEndsWith_ts (p : String) :
    strEndsWith p ".ts" = isPreL ['s', 't', '.'] p.data.reverse := rfl

theorem strEndsWith_tsx (p : String) :
    strEndsWith p ".tsx" = isPreL ['x', 's', 't', '.'] p.data.reverse := rfl

theorem ext_exclusive (p : String) :
    (strEndsWith p ".py" = true →
      strEndsWith p ".ts" = false ∧ strEndsWith p ".tsx" = false)
  ∧ (strEndsWith p ".ts" = true →
      strEndsWith p ".py" = false ∧ strEndsWith p ".tsx" = false)
  ∧ (strEndsWith p ".tsx" = true →
      strEndsWith p ".py" = false ∧ strEndsWith p ".ts" = false) := by
  rw [strEndsWith_py, strEndsWith_ts, strEndsWith_tsx]
  cases p.data.reverse with
  | nil => refine ⟨?_, ?_, ?_⟩ <;> intro h <;> exact absurd h (by decide)
  | cons d t =>
    refine ⟨?_, ?_, ?_⟩ <;> intro h
    · have h2 : (decide (('y' : Char) = d) && isPreL ['p', '.'] t) = true := h
      rw [Bool.and_eq_true] at h2
      have hd : ('y' : Char) = d := of_decide_eq_true h2.1
      subst hd
      exact ⟨isPreL_false_of_head _ _ _ _ (by decide),
        isPreL_false_of_head _ _ _ _ (by decide)⟩
    · have h2 : (decide (('s' : Char) = d) && isPreL ['t', '.'] t) = true := h
      rw [Bool.and_eq_true] at h2
      have hd : ('s' : Char) = d := of_decide_eq_true h2.1
      subst hd
      exact ⟨isPreL_false_of_head _ _ _ _ (by decide),
        isPreL_false_of_head _ _ _ _ (by decide)⟩
    · have h2 : (decide (('x' : Char) = d) && isPreL ['s', 't', '.'] t) = true := h
      rw [Bool.and_eq_true] at h2
      have hd : ('x' : Char) = d := of_decide_eq_true h2.1
      subst hd
      exact ⟨isPreL_false_of_head _ _ _ _ (by decide),
        isPreL_false_of_head _ _ _ _ (by decide)⟩

theorem ext_not_manifest (p : String)
    (h : strEndsWith p ".py" = true ∨ strEndsWith p ".ts" = true ∨
      strEndsWith p ".tsx" = true) :
    ¬ p = "requirements.txt" ∧ ¬ p = "pyproject.toml" ∧ ¬ p = "Pipfile" := by
  refine ⟨?_, ?_, ?_⟩ <;> intro he <;> subst he <;>
    rcases h with h | h | h <;> exact absurd h (by decide)

theorem dlookup_middle_ne {α : Type} (l1 l2 : List (String × α)) (p : String) (c : α)
    (q : String) (h : ¬ p = q) :
    dlookup (l1 ++ (p, c) :: l2) q = dlookup (l1 ++ l2) q := by
  induction l1 with
  | nil => simp only [List.nil_append, dlookup, if_neg h]
  | cons e t ih =>
    obtain ⟨k0, v0⟩ := e
    show (if k0 = q then some v0 else dlookup (t ++ (p, c) :: l2) q)
        = (if k0 = q then some v0 else dlookup (t ++ l2) q)
    by_cases hk : k0 = q
    · rw [if_pos hk, if_pos hk]
    · rw [if_neg hk, if_neg hk, ih]

theorem checkPyDeps_middle (l1 l2 : List (String × Option String)) (p : String)
    (c : Option String) (deps : List String) (h : ∀ d ∈ deps, ¬ p = d) :
    checkPyDeps (l1 ++ (p, c) :: l2) deps = checkPyDeps (l1 ++ l2) deps := by
  induction deps with
  | nil => rfl
  | cons d rest ih =>
    have ih2 := ih (fun d2 hd2 => h d2 (by simp [hd2]))
    simp only [checkPyDeps]
    rw [dlookup_middle_ne l1 l2 p c d (h d (by simp))]
    cases dlookup (l1 ++ l2) d with
    | none => exact ih2
    | some oc =>
      cases oc with
      | none => rfl
      | some content =>
        show (if (hasSub content "mcp" || hasSub content "fastmcp") = true then some true
              else checkPyDeps (l1 ++ (p, c) :: l2) rest)
            = (if (hasSub content "mcp" || hasSub content "fastmcp") = true then some true
              else checkPyDeps (l1 ++ l2) rest)
        by_cases hc : (hasSub content "mcp" || hasSub content "fastmcp") = true
        · rw [if_pos hc, if_pos hc]
        · rw [if_neg hc, if_neg hc]; exact ih2

theorem patternTools_skip (root : String) (l1 l2 : List (String × Option String))
    (p : String) (pj : Option PkgJson)
    (hext : strEndsWith p ".py" = true ∨ strEndsWith p ".ts" = true ∨
      strEndsWith p ".tsx" = true) :
    patternTools ⟨root, l1 ++ (p, none) :: l2, pj⟩
      = patternTools ⟨root, l1 ++ l2, pj⟩ := by
  have hpy0 : detect_python_tools p none = [] := rfl
  have hts0 : detect_typescript_tools p none = [] := rfl
  rcases hext with h | h | h
  · have hex := (ext_exclusive p).1 h
    rw [patternTools_eq, patternTools_eq, tsFiles_eq, tsFiles_eq]
    simp [pyFiles, List.filter_append, List.filter_cons, h, hex.1, hex.2,
      flatMapL_append, flatMapL, hpy0, hts0]
  · have hex := (ext_exclusive p).2.1 h
    rw [patternTools_eq, patternTools_eq, tsFiles_eq, tsFiles_eq]
    simp [pyFiles, List.filter_append, List.filter_cons, h, hex.1, hex.2,
      flatMapL_append, flatMapL, hpy0, hts0]
  · have hex := (ext_exclusive p).2.2 h
    rw [patternTools_eq, patternTools_eq, tsFiles_eq, tsFiles_eq]
    simp [pyFiles, List.filter_append, List.filter_cons, h, hex.1, hex.2,
      flatMapL_append, flatMapL, hpy0, hts0]

theorem is_mcp_server_skip (root : String) (l1 l2 : List (String × Option String))
    (p : String) (pj : Option PkgJson)
    (hext : strEndsWith p ".py" = true ∨ strEndsWith p ".ts" = true ∨
      strEndsWith p ".tsx" = true) :
    is_mcp_server ⟨root, l1 ++ (p, none) :: l2, pj⟩
      = is_mcp_server ⟨root, l1 ++ l2, pj⟩ := by
  obtain ⟨h1, h2, h3⟩ := ext_not_manifest p hext
  have hdeps : ∀ d ∈ ["requirements.txt", "pyproject.toml", "Pipfile"], ¬ p = d := by
    intro d hd
    simp only [List.mem_cons, List.not_mem_nil, or_false] at hd
    rcases hd with rfl | rfl | rfl
    · exact h1
    · exact h2
    · exact h3
  have hc := checkPyDeps_middle l1 l2 p none
    ["requirements.txt", "pyproject.toml", "Pipfile"] hdeps
  unfold is_mcp_server
  rw [show (⟨root, l1 ++ (p, none) :: l2, pj⟩ : Repo).files = l1 ++ (p, none) :: l2 from rfl]
  rw [show (⟨root, l1 ++ l2, pj⟩ : Repo).files = l1 ++ l2 from rfl]
  rw [hc]

/-- Claim C9 (amended): for the source files the language detectors scan
(`*.py`, `*.ts`, `*.tsx`), a read failure is swallowed: the file contributes
no record (partial or otherwise), and removing the failing file from the
repository leaves the result of `detect_tools` unchanged — the pass
continues over the remaining files. -/
theorem detect_source_failure_skipped :
    (∀ p : String, detect_python_tools p none = []
        ∧ detect_typescript_tools p none = [])
  ∧ (∀ (root : String) (l1 l2 : List (String × Option String)) (p : String)
        (pj : Option PkgJson),
      strEndsWith p ".py" = true ∨ strEndsWith p ".ts" = true ∨
        strEndsWith p ".tsx" = true →
      detect_tools ⟨root, l1 ++ (p, none) :: l2, pj⟩
        = detect_tools ⟨root, l1 ++ l2, pj⟩) := by
  constructor
  · intro p; exact ⟨rfl, rfl⟩
  · intro root l1 l2 p pj hext
    rw [detect_tools_eq, detect_tools_eq, patternTools_skip root l1 l2 p pj hext,
      is_mcp_server_skip root l1 l2 p pj hext]

theorem detect_source_failure_skipped_witness :
    detect_tools ⟨"r", [("bad.py", none), ("a.py", some "x = 1")], none⟩
      = detect_tools ⟨"r", [("a.py", some "x = 1")], none⟩ :=
  detect_source_failure_skipped.2 "r" [] [("a.py", some "x = 1")] "bad.py" none
    (Or.inl (by decide))
